import Mathlib

/-!
Verification of the credential-pool logic of the pi-config repository.

Two modules are embedded:
* the antigravity multi-account round-robin extension
  (accounts, rotation modes, rate-limit tracking, the provider refreshToken
  hook, import/remove commands);
* the codex-swap profile switcher
  (profiles, selector resolution, add/rm, legacy-store migration).

Times are modelled as natural numbers of milliseconds (JavaScript
Date.now() values).  JavaScript mutation of objects held in arrays is
modelled by functional update of the corresponding list entry.  Network
effects (the OAuth token endpoint) are modelled by an explicit outcome
argument.  JavaScript Error objects are modelled by their message string.
-/

/- ===================== antigravity multi-account ===================== -/

structure AntigravityAccount where
  email : String
  refreshToken : String
  projectId : String
  accessToken : Option String := none
  accessTokenExpires : Option Nat := none
  addedAt : Nat := 0
  lastUsed : Option Nat := none
  lastError : Option String := none
  rateLimitResetTime : Option Nat := none
  requestCount : Option Nat := none
deriving Repr, DecidableEq

inductive RotationMode where
  | roundRobin
  | useUntilExhausted
deriving Repr, DecidableEq

structure AccountsConfig where
  version : Nat := 1
  accounts : List AntigravityAccount
  activeIndex : Nat
  rotationMode : RotationMode
deriving Repr, DecidableEq

/-- Availability test used (in identical form) by getAvailableAccounts and by
the scan loops in getNextAccountIndex: an account is available iff it has no
rateLimitResetTime or that time has passed.  (A stored 0 is falsy in
JavaScript and is ≤ now here, so Option Nat is a faithful model.) -/
def isAvailableAt (a : AntigravityAccount) (now : Nat) : Bool :=
  match a.rateLimitResetTime with
  | none => true
  | some t => decide (t ≤ now)

/-- getAvailableAccounts: filter the pool by availability, preserving order.
The two Date.now() reads of the source are identified as one instant. -/
def getAvailableAccounts (cfg : AccountsConfig) (now : Nat) : List AntigravityAccount :=
  cfg.accounts.filter (fun a => isAvailableAt a now)

/-- Comparison resetTime < soonestTime of the all-rate-limited loop, where
soonestTime starts as Infinity (modelled by none). -/
def ltSoonest (resetTime : Nat) : Option Nat → Bool
  | none => true
  | some t => decide (resetTime < t)

/-- The loop of getNextAccountIndex for the all-rate-limited case: carries the
running (soonestIdx, soonestTime) pair over the account list; i is the index
of the head of the remaining list. -/
def soonestLoop : List AntigravityAccount → Nat → Nat → Option Nat → Nat × Option Nat
  | [], _, best, bestT => (best, bestT)
  | a :: rest, i, best, bestT =>
    let resetTime := a.rateLimitResetTime.getD 0
    if ltSoonest resetTime bestT then soonestLoop rest (i + 1) i (some resetTime)
    else soonestLoop rest (i + 1) best bestT

/-- Index of the account whose rateLimitResetTime (?? 0) is smallest, first
minimum winning; soonestIdx starts at 0 and soonestTime at Infinity. -/
def soonestResetIdx (accounts : List AntigravityAccount) : Nat :=
  (soonestLoop accounts 0 0 none).1

/-- The cyclic scan loop of the round-robin branch of getNextAccountIndex:
starting at idx, up to fuel attempts, return the first available index,
advancing by (idx + 1) % length each step. -/
def rrScanAux (accounts : List AntigravityAccount) (now : Nat) : Nat → Nat → Option Nat
  | _, 0 => none
  | idx, fuel + 1 =>
    match accounts[idx]? with
    | some account =>
      if isAvailableAt account now then some idx
      else rrScanAux accounts now ((idx + 1) % accounts.length) fuel
    | none => none

/-- The linear scan of the use-until-exhausted fallback (for i = k upward over
the remaining list): first available index. -/
def findFirstAvailableAux (now : Nat) : List AntigravityAccount → Nat → Option Nat
  | [], _ => none
  | a :: rest, i =>
    if isAvailableAt a now then some i else findFirstAvailableAux now rest (i + 1)

/-- The tail of getNextAccountIndex (the code after the round-robin block,
reached when that block does not return): stay on the active account when it
exists and is available, else the first available index, else activeIndex. -/
def ueSelect (cfg : AccountsConfig) (now : Nat) : Int :=
  let stay : Bool :=
    match cfg.accounts[cfg.activeIndex]? with
    | some current => isAvailableAt current now
    | none => false
  if stay then (cfg.activeIndex : Int)
  else
    match findFirstAvailableAux now cfg.accounts 0 with
    | some i => (i : Int)
    | none => (cfg.activeIndex : Int)

/-- getNextAccountIndex: -1 on an empty pool; if every account is rate
limited, the soonest-resetting index; in round-robin mode or when forced, the
cyclic scan starting just after activeIndex (falling through to ueSelect when
it finds nothing, as the source loop does). -/
def getNextAccountIndex (cfg : AccountsConfig) (now : Nat) (forceSwitch : Bool) : Int :=
  if cfg.accounts.length = 0 then -1
  else
    let available := getAvailableAccounts cfg now
    if available.length = 0 then
      (soonestResetIdx cfg.accounts : Int)
    else
      let rrResult : Option Nat :=
        if cfg.rotationMode = RotationMode.roundRobin ∨ forceSwitch = true then
          rrScanAux cfg.accounts now ((cfg.activeIndex + 1) % cfg.accounts.length)
            cfg.accounts.length
        else none
      match rrResult with
      | some idx => (idx : Int)
      | none => ueSelect cfg now

/-- markAccountRateLimited: guard the index, then set the account's
rateLimitResetTime to now + resetMs and record a human-readable lastError
(the ISO rendering of the instant is abstracted to its numeric value). -/
def markAccountRateLimited (cfg : AccountsConfig) (accountIndex resetMs now : Nat) :
    AccountsConfig :=
  match cfg.accounts[accountIndex]? with
  | none => cfg
  | some account =>
    let account := { account with
      rateLimitResetTime := some (now + resetMs),
      lastError := some ("Rate limited until " ++ toString (now + resetMs)) }
    { cfg with accounts := cfg.accounts.set accountIndex account }

/-- switchToNextAccount: force-advance activeIndex to getNextAccountIndex
(force = true) when that is a different non-negative index, and return the
resulting config together with the value of config.activeIndex AFTER the
update (the source returns config.activeIndex on its last line). -/
def switchToNextAccount (cfg : AccountsConfig) (now : Nat) : AccountsConfig × Int :=
  let nextIdx := getNextAccountIndex cfg now true
  if 0 ≤ nextIdx ∧ nextIdx ≠ (cfg.activeIndex : Int) then
    let cfg' := { cfg with activeIndex := nextIdx.toNat }
    (cfg', (cfg'.activeIndex : Int))
  else (cfg, (cfg.activeIndex : Int))

/-- One outcome of a POST to the token endpoint for one account: either
{ access_token, expires_in } or a failure body text. -/
inductive RefreshOutcome where
  | ok (accessToken : String) (expiresIn : Nat)
  | err (errorText : String)
deriving Repr, DecidableEq

/-- refreshAccessToken: on a non-ok response throw the formatted error; on
success return the token and now + expires_in·1000 − 5-minute buffer. -/
def refreshAccessToken (account : AntigravityAccount) (outcome : RefreshOutcome)
    (now : Nat) : Except String (String × Nat) :=
  match outcome with
  | RefreshOutcome.err e =>
    Except.error ("Token refresh failed for " ++ account.email ++ ": " ++ e)
  | RefreshOutcome.ok tok expiresIn =>
    Except.ok (tok, now + expiresIn * 1000 - 5 * 60 * 1000)

/-- Cached-token test of getValidAccessToken: a token and expiry are present
and the expiry is still in the future.  (The code never stores an empty
token, so presence models JavaScript truthiness.) -/
def tokenCacheValid (account : AntigravityAccount) (now : Nat) : Bool :=
  match account.accessToken, account.accessTokenExpires with
  | some _, some exp => decide (now < exp)
  | _, _ => false

/-- Refresh path of getValidAccessToken: call refreshAccessToken and on
success store the new token and expiry on the account. -/
def refreshAndStore (account : AntigravityAccount) (outcome : RefreshOutcome)
    (now : Nat) : Except String (AntigravityAccount × String) :=
  match refreshAccessToken account outcome now with
  | Except.error e => Except.error e
  | Except.ok (tok, exp) =>
    Except.ok ({ account with accessToken := some tok, accessTokenExpires := some exp }, tok)

/-- getValidAccessToken: return the cached token when still valid, else
refresh (the mutation of the account is returned functionally; saveConfig is
persistence and is not modelled). -/
def getValidAccessToken (account : AntigravityAccount) (outcome : RefreshOutcome)
    (now : Nat) : Except String (AntigravityAccount × String) :=
  if tokenCacheValid account now then Except.ok (account, account.accessToken.getD "")
  else refreshAndStore account outcome now

structure MultiAccountMeta where
  activeIndex : Nat
  totalAccounts : Nat
deriving Repr, DecidableEq

structure MultiAccountCredentials where
  refresh : String
  access : String
  expires : Nat
  projectId : String
  email : String
  _multiAccount : MultiAccountMeta
deriving Repr, DecidableEq

/-- The rotate-then-select step at the top of the provider refreshToken hook:
in round-robin mode, when getNextAccountIndex (no force) differs from
activeIndex, move activeIndex there. -/
def selectForRefresh (cfg : AccountsConfig) (now : Nat) : AccountsConfig :=
  let nextIdx := getNextAccountIndex cfg now false
  if cfg.rotationMode = RotationMode.roundRobin ∧ nextIdx ≠ (cfg.activeIndex : Int) then
    { cfg with activeIndex := nextIdx.toNat }
  else cfg

/-- The provider refreshToken hook.  outcomes gives, per account index, the
token-endpoint outcome for that account at this instant.  The final global
config is returned alongside the result (the source mutates module state).
The catch block records String(e) as lastError on the selected account, calls
switchToNextAccount, and retries only when the returned fallback index
differs from config.activeIndex. -/
def piRefreshToken (cfg : AccountsConfig) (now : Nat)
    (outcomes : Nat → RefreshOutcome) :
    AccountsConfig × Except String MultiAccountCredentials :=
  let nextIdx := getNextAccountIndex cfg now false
  if nextIdx < 0 then
    (cfg, Except.error "No Antigravity accounts configured. Use /ag-import to add accounts.")
  else
    let cfg := selectForRefresh cfg now
    match cfg.accounts[cfg.activeIndex]? with
    | none => (cfg, Except.error "No active account found")
    | some account =>
      match getValidAccessToken account (outcomes cfg.activeIndex) now with
      | Except.ok (account1, accessToken) =>
        let account2 := { account1 with
          lastUsed := some now,
          requestCount := some (account1.requestCount.getD 0 + 1) }
        let cfg' := { cfg with accounts := cfg.accounts.set cfg.activeIndex account2 }
        (cfg', Except.ok {
          refresh := account2.refreshToken,
          access := accessToken,
          expires := account2.accessTokenExpires.getD (now + 3600000),
          projectId := account2.projectId,
          email := account2.email,
          _multiAccount := { activeIndex := cfg'.activeIndex,
                             totalAccounts := cfg'.accounts.length } })
      | Except.error e =>
        let accountErr := { account with lastError := some e }
        let cfg1 := { cfg with accounts := cfg.accounts.set cfg.activeIndex accountErr }
        let res := switchToNextAccount cfg1 now
        let cfg2 := res.1
        let fallbackIdx := res.2
        if fallbackIdx ≠ (cfg2.activeIndex : Int) then
          match cfg2.accounts[fallbackIdx.toNat]? with
          | some fallback =>
            match getValidAccessToken fallback (outcomes fallbackIdx.toNat) now with
            | Except.ok (fallback', accessToken) =>
              let cfg3 := { cfg2 with
                accounts := cfg2.accounts.set fallbackIdx.toNat fallback' }
              (cfg3, Except.ok {
                refresh := fallback'.refreshToken,
                access := accessToken,
                expires := fallback'.accessTokenExpires.getD (now + 3600000),
                projectId := fallback'.projectId,
                email := fallback'.email,
                _multiAccount := { activeIndex := fallbackIdx.toNat,
                                   totalAccounts := cfg2.accounts.length } })
            | Except.error e2 => (cfg2, Except.error e2)
          | none => (cfg2, Except.error e)
        else (cfg2, Except.error e)

/-- ag-import: reject (reporting the existing account) when an account with
the same refresh token exists, else push the new account; activeIndex is
untouched. -/
def agImport (cfg : AccountsConfig) (newAccount : AntigravityAccount) :
    AccountsConfig × Option AntigravityAccount :=
  match cfg.accounts.find? (fun a => a.refreshToken == newAccount.refreshToken) with
  | some existing => (cfg, some existing)
  | none => ({ cfg with accounts := cfg.accounts ++ [newAccount] }, none)

/- ======================= string helpers (shared) ====================== -/

/-- Does hay start with needle (character lists)? -/
def charsStartWith : List Char → List Char → Bool
  | _, [] => true
  | [], _ :: _ => false
  | c :: cs, d :: ds => c == d && charsStartWith cs ds

/-- JavaScript String.prototype.includes on character lists. -/
def charsContain : List Char → List Char → Bool
  | [], needle => needle.isEmpty
  | hay@(_ :: rest), needle => charsStartWith hay needle || charsContain rest needle

/-- JavaScript hay.includes(needle). -/
def strIncludes (hay needle : String) : Bool :=
  charsContain hay.data needle.data

/-- JavaScript String.prototype.toLowerCase, over the character list. -/
def strToLower (s : String) : String := String.mk (s.data.map Char.toLower)

/-- Leading- and trailing-whitespace trim over a character list. -/
def trimChars (cs : List Char) : List Char :=
  ((cs.dropWhile Char.isWhitespace).reverse.dropWhile Char.isWhitespace).reverse

/-- JavaScript String.prototype.trim. -/
def strTrim (s : String) : String := String.mk (trimChars s.data)

/- =================== rate-limit delay extraction ===================== -/

def isAsciiDigit (c : Char) : Bool := decide ('0' ≤ c) && decide (c ≤ '9')

/-- Decimal value of a digit run (the semantics of parseInt on a captured
digits-only group). -/
def digitsToNat (ds : List Char) : Nat :=
  ds.foldl (fun n c => n * 10 + (c.toNat - '0'.toNat)) 0

/-- Decimal-integer parse: the semantics of Number and of parseInt(s, 10) on
a plain decimal digit string (exotic numeric forms such as exponents, hex,
signs or trailing garbage are not modelled; no selector in the claims uses
them). -/
def strToNat? (s : String) : Option Nat :=
  if s.data ≠ [] ∧ s.data.all isAsciiDigit then some (digitsToNat s.data) else none

/-- Greedy match of a regex (\d+) at the head of the input: the maximal
nonempty digit run and the rest.  (Backtracking to a shorter run can never
help the patterns below, since the following character would be a digit.) -/
def parseDigitRun (cs : List Char) : Option (Nat × List Char) :=
  let ds := cs.takeWhile isAsciiDigit
  if ds.isEmpty then none
  else some (digitsToNat ds, cs.dropWhile isAsciiDigit)

/-- Case-insensitive single-letter match (the /i flag). -/
def expectCharCI (c : Char) : List Char → Option (List Char)
  | [] => none
  | d :: rest => if d.toLower == c then some rest else none

/-- Match of /(\d+)h(\d+)m(\d+)s/i at the head of the input. -/
def matchHmsAt (cs : List Char) : Option (Nat × Nat × Nat) :=
  match parseDigitRun cs with
  | none => none
  | some (h, cs) =>
    match expectCharCI 'h' cs with
    | none => none
    | some cs =>
      match parseDigitRun cs with
      | none => none
      | some (m, cs) =>
        match expectCharCI 'm' cs with
        | none => none
        | some cs =>
          match parseDigitRun cs with
          | none => none
          | some (s, cs) =>
            match expectCharCI 's' cs with
            | none => none
            | some _ => some (h, m, s)

/-- Match of /(\d+)m(\d+)s/i at the head of the input. -/
def matchMinAt (cs : List Char) : Option (Nat × Nat) :=
  match parseDigitRun cs with
  | none => none
  | some (m, cs) =>
    match expectCharCI 'm' cs with
    | none => none
    | some cs =>
      match parseDigitRun cs with
      | none => none
      | some (s, cs) =>
        match expectCharCI 's' cs with
        | none => none
        | some _ => some (m, s)

/-- Match of /(\d+)\s*s/i at the head of the input. -/
def matchSecAt (cs : List Char) : Option Nat :=
  match parseDigitRun cs with
  | none => none
  | some (n, cs) =>
    match expectCharCI 's' (cs.dropWhile Char.isWhitespace) with
    | none => none
    | some _ => some n

/-- Leftmost match: regex search tries every start position from the left. -/
def scanFirst {α : Type} (f : List Char → Option α) : List Char → Option α
  | [] => none
  | cs@(_ :: rest) =>
    match f cs with
    | some x => some x
    | none => scanFirst f rest

/-- The delay-extraction policy of the turn_end handler: hourMatch, else
minMatch, else secMatch, else the 60 s default; each branch converts the
captured groups exactly as the source does. -/
def extractRetryDelayMs (msg : String) : Nat :=
  match scanFirst matchHmsAt msg.data with
  | some (h, m, s) => (h * 3600 + m * 60 + s) * 1000
  | none =>
    match scanFirst matchMinAt msg.data with
    | some (m, s) => (m * 60 + s) * 1000
    | none =>
      match scanFirst matchSecAt msg.data with
      | some n => n * 1000
      | none => 60000

/- ========================= ag-remove command ========================= -/

/-- findIndex of the ag-remove email fallback: first account whose
lower-cased email contains the lower-cased selector. -/
def findFirstMatchingEmail (lowered : String) : List AntigravityAccount → Nat → Option Nat
  | [], _ => none
  | a :: rest, i =>
    if strIncludes (strToLower a.email) lowered then some i
    else findFirstMatchingEmail lowered rest (i + 1)

/-- Selector of the ag-remove handler: a 1-based in-bounds integer (parseInt
on a plain decimal string is modelled by String.toNat?), else the first
account whose email contains the selector case-insensitively. -/
def agFindRemovalIndex (cfg : AccountsConfig) (arg : String) : Option Nat :=
  let byNumber : Option Nat :=
    match strToNat? arg with
    | some n => if 1 ≤ n ∧ n ≤ cfg.accounts.length then some (n - 1) else none
    | none => none
  match byNumber with
  | some i => some i
  | none => findFirstMatchingEmail (strToLower arg) cfg.accounts 0

/-- The splice-and-clamp step of ag-remove: remove the account at index, then
if activeIndex fell off the end, clamp it to max 0 (length − 1). -/
def agRemoveAt (cfg : AccountsConfig) (index : Nat) : AccountsConfig :=
  let accounts' := cfg.accounts.eraseIdx index
  let active' := if accounts'.length ≤ cfg.activeIndex then accounts'.length - 1
                 else cfg.activeIndex
  { cfg with accounts := accounts', activeIndex := active' }

/-- ag-remove: resolve the (trimmed) selector; on failure notify and leave
the config untouched, else splice and clamp. -/
def agRemove (cfg : AccountsConfig) (args : String) : AccountsConfig :=
  match agFindRemovalIndex cfg (strTrim args) with
  | none => cfg
  | some index => agRemoveAt cfg index

/- ========================= codex-swap module ========================= -/

structure OAuthCred where
  type : String := "oauth"
  refresh : Option String := none
  access : Option String := none
  expires : Option Nat := none
  accountId : Option String := none
deriving Repr, DecidableEq

structure Profile where
  id : String
  label : String
  savedAt : Nat
  email : Option String := none
  accountId : Option String := none
  oauth : OAuthCred
deriving Repr, DecidableEq

structure StoreV2 where
  version : Nat := 2
  activeProfileId : Option String := none
  profiles : List Profile
deriving Repr, DecidableEq

/-- Collapse every whitespace run to one space; prevWs records whether the
previous character was part of a whitespace run. -/
def collapseWsAux : List Char → Bool → List Char
  | [], _ => []
  | c :: cs, prevWs =>
    if c.isWhitespace then
      (if prevWs then [] else [' ']) ++ collapseWsAux cs true
    else c :: collapseWsAux cs false

/-- sanitizeLabel: trim, then collapse every whitespace run to one space. -/
def sanitizeLabel (label : String) : String :=
  String.mk (collapseWsAux (trimChars label.data) false)

/-- The while loop of ensureUniqueLabel, searching upward from i for the
first "base i" whose lower-casing is not taken.  The source loop terminates
by pigeonhole; here the fuel argument (always called with enough fuel) makes
that explicit. -/
def ensureUniqueLabelLoop (taken : List String) (base : String) : Nat → Nat → String
  | i, 0 => base ++ " " ++ toString i
  | i, fuel + 1 =>
    let cand := base ++ " " ++ toString i
    if taken.contains (strToLower cand) then ensureUniqueLabelLoop taken base (i + 1) fuel
    else cand

/-- ensureUniqueLabel: sanitize the preferred label (empty becomes
"profile"), then deduplicate case-insensitively against every profile other
than excludeId by appending " 2", " 3", ... -/
def ensureUniqueLabel (profiles : List Profile) (preferred : String)
    (excludeId : Option String) : String :=
  let s := sanitizeLabel preferred
  let base := if s = "" then "profile" else s
  let taken :=
    (profiles.filter (fun p =>
      match excludeId with
      | none => true
      | some e => p.id != e)).map (fun p => strToLower p.label)
  if taken.contains (strToLower base) then
    ensureUniqueLabelLoop taken base 2 (taken.length + 1)
  else base

/-- defaultLabelFor.  inferEmail decodes the JWT payload of the access
token; that external data extraction is passed in as inferredEmail. -/
def defaultLabelFor (oauth : OAuthCred) (inferredEmail : Option String)
    (profiles : List Profile) : String :=
  let fromEmail :=
    String.mk (trimChars ((inferredEmail.getD "").data.takeWhile (fun c => c ≠ '@')))
  if fromEmail ≠ "" then ensureUniqueLabel profiles fromEmail none
  else
    let acct := match oauth.accountId with
      | some s => String.mk (s.data.take 8)
      | none => "profile"
    ensureUniqueLabel profiles ("codex-" ++ acct) none

/-- findByRefresh: undefined when the credential has no refresh secret, else
the first profile with that refresh secret. -/
def findByRefresh (profiles : List Profile) (refresh : Option String) : Option Profile :=
  match refresh with
  | none => none
  | some r => profiles.find? (fun p => p.oauth.refresh == some r)

/-- profileFromOauth.  The random fresh id and Date.now() are parameters;
inferEmail is passed in as inferredEmail. -/
def profileFromOauth (oauth : OAuthCred) (label : String) (now : Nat)
    (freshId : String) (inferredEmail : Option String) : Profile :=
  { id := freshId, label := label, savedAt := now, email := inferredEmail,
    accountId := oauth.accountId, oauth := oauth }

/-- In-place mutation of the first profile whose refresh secret is r
(JavaScript mutates the object returned by find). -/
def updateFirstByRefresh (r : String) (f : Profile → Profile) : List Profile → List Profile
  | [] => []
  | p :: ps =>
    if p.oauth.refresh == some r then f p :: ps
    else p :: updateFirstByRefresh r f ps

/-- The exact-match test of resolveProfile: case-insensitive equality on
label or id. -/
def exactMatchPred (lower : String) (p : Profile) : Bool :=
  strToLower p.label == lower || strToLower p.id == lower

/-- The substring-match test of resolveProfile: case-insensitive containment
in label or email. -/
def fuzzyMatchPred (lower : String) (p : Profile) : Bool :=
  strIncludes (strToLower p.label) lower || strIncludes (strToLower (p.email.getD "")) lower

/-- resolveProfile: trimmed selector; (a) an exact 1-based in-bounds integer
selects positionally (an out-of-bounds integer falls through); (b) first
case-insensitive exact match on label or id; (c) the unique case-insensitive
substring match on label or email, none when ambiguous. -/
def resolveProfile (profiles : List Profile) (selector : String) : Option Profile :=
  let target := strTrim selector
  if target = "" then none
  else
    let positional : Option Profile :=
      match strToNat? target with
      | some n => if 1 ≤ n ∧ n ≤ profiles.length then profiles[n - 1]? else none
      | none => none
    match positional with
    | some p => some p
    | none =>
      let lower := strToLower target
      match profiles.find? (exactMatchPred lower) with
      | some exact => some exact
      | none =>
        match profiles.filter (fuzzyMatchPred lower) with
        | [p] => some p
        | _ => none

/-- The add/save branch of the codexswap command: an existing profile with
the live refresh secret is updated in place (oauth, savedAt, email,
accountId, and the label when one was requested) and made active; otherwise
a new profile is appended and made active.  desiredRaw is the requested
label (possibly empty), freshId the random id a new profile would get. -/
def codexswapAdd (store : StoreV2) (live : OAuthCred) (inferredEmail : Option String)
    (desiredRaw : String) (now : Nat) (freshId : String) : StoreV2 :=
  let desired := sanitizeLabel desiredRaw
  match findByRefresh store.profiles live.refresh with
  | some existing =>
    let updhimself := fun (p : Profile) =>
      { p with
        oauth := live, savedAt := now, email := inferredEmail,
        accountId := live.accountId,
        label := if desired ≠ "" then ensureUniqueLabel store.profiles desired (some p.id)
                 else p.label }
    { store with
      profiles := updateFirstByRefresh (live.refresh.getD "") updhimself store.profiles,
      activeProfileId := some existing.id }
  | none =>
    let label := if desired ≠ "" then ensureUniqueLabel store.profiles desired none
                 else defaultLabelFor live inferredEmail store.profiles
    let profile := profileFromOauth live label now freshId inferredEmail
    { store with
      profiles := store.profiles ++ [profile],
      activeProfileId := some profile.id }

/-- The rm branch of the codexswap command: resolve the selector (leaving
the store untouched when it resolves to none), drop the profile, and when it
was active point activeProfileId at profiles[0]?.id. -/
def codexswapRm (store : StoreV2) (rest : String) : StoreV2 :=
  match resolveProfile store.profiles rest with
  | none => store
  | some target =>
    let profiles' := store.profiles.filter (fun p => p.id != target.id)
    let active' := if store.activeProfileId = some target.id
                   then profiles'.head?.map (fun p => p.id)
                   else store.activeProfileId
    { store with profiles := profiles', activeProfileId := active' }

/- ===================== legacy store migration ======================== -/

inductive LegacySlotName where
  | current
  | previous
deriving Repr, DecidableEq

def legacySlotNameStr : LegacySlotName → String
  | LegacySlotName.current => "current"
  | LegacySlotName.previous => "previous"

structure LegacySlot where
  label : String
  savedAt : Nat
  email : Option String := none
  accountId : Option String := none
  oauth : OAuthCred
deriving Repr, DecidableEq

structure LegacyStore where
  activeSlot : Option LegacySlotName := none
  slotCurrent : Option LegacySlot := none
  slotPrevious : Option LegacySlot := none
deriving Repr, DecidableEq

/-- addLegacy of migrateLegacyStore: skip an absent slot or one whose
credential is not oauth-typed, skip when the refresh secret already appears,
else append the legacy_<name> profile.  A falsy (empty) label falls back to
the slot name, as does a label that sanitizes to empty; a falsy (0) savedAt
falls back to Date.now(). -/
def addLegacy (legacy : LegacyStore) (name : LegacySlotName) (now : Nat)
    (profiles : List Profile) : List Profile :=
  let slot? := match name with
    | LegacySlotName.current => legacy.slotCurrent
    | LegacySlotName.previous => legacy.slotPrevious
  match slot? with
  | none => profiles
  | some slot =>
    if slot.oauth.type ≠ "oauth" then profiles
    else if (findByRefresh profiles slot.oauth.refresh).isSome then profiles
    else
      let base := sanitizeLabel (if slot.label = "" then legacySlotNameStr name else slot.label)
      profiles ++ [{
        id := "legacy_" ++ legacySlotNameStr name,
        label := if base = "" then legacySlotNameStr name else base,
        savedAt := if slot.savedAt = 0 then now else slot.savedAt,
        email := slot.email,
        accountId := slot.accountId,
        oauth := slot.oauth }]

/-- migrateLegacyStore: migrate the current then the previous slot, and carry
the active slot over as activeProfileId when its profile was migrated. -/
def migrateLegacyStore (legacy : LegacyStore) (now : Nat) : StoreV2 :=
  let profiles := addLegacy legacy LegacySlotName.previous now
    (addLegacy legacy LegacySlotName.current now [])
  let activeProfileId :=
    match legacy.activeSlot with
    | none => none
    | some slotName =>
      (profiles.find? (fun p => p.id == "legacy_" ++ legacySlotNameStr slotName)).map
        (fun p => p.id)
  { activeProfileId := activeProfileId, profiles := profiles }

/- ============ statement-side definitions and invariants ============== -/

/-- rateLimitResetTime ?? 0 of the account at index j (0 out of range), the
key minimized by the all-rate-limited branch of getNextAccountIndex. -/
def resetKey (accounts : List AntigravityAccount) (j : Nat) : Nat :=
  match accounts[j]? with
  | some a => a.rateLimitResetTime.getD 0
  | none => 0

/-- Is the account at index i available at now (false out of range)? -/
def availIdx (accounts : List AntigravityAccount) (now i : Nat) : Bool :=
  match accounts[i]? with
  | some a => isAvailableAt a now
  | none => false

/-- Spec-side description of the round-robin selection (section 4.4 of the
spec): the first available index when scanning forward cyclically from
start, visiting each of the pool-size candidate positions once. -/
def cyclicFirstAvailable (accounts : List AntigravityAccount) (now start : Nat) :
    Option Nat :=
  ((List.range accounts.length).map (fun k => (start + k) % accounts.length)).find?
    (availIdx accounts now)

/-- How many pool accounts carry the refresh token r. -/
def countByRefreshToken (accounts : List AntigravityAccount) (r : String) : Nat :=
  (accounts.filter (fun a => a.refreshToken == r)).length

/-- How many store profiles carry the refresh secret r. -/
def countByRefreshSecret (profiles : List Profile) (r : String) : Nat :=
  (profiles.filter (fun p => p.oauth.refresh == some r)).length

/-- Active-pointer invariant of the profile store: activeProfileId is
undefined or designates a stored profile. -/
def storeInv (store : StoreV2) : Prop :=
  store.activeProfileId = none ∨ ∃ p ∈ store.profiles, store.activeProfileId = some p.id

/-- Active-pointer invariant of the account pool: activeIndex is the
empty-state value 0 on an empty pool and a valid index otherwise. -/
def agInv (cfg : AccountsConfig) : Prop :=
  (cfg.accounts = [] ∧ cfg.activeIndex = 0) ∨ cfg.activeIndex < cfg.accounts.length

/- ================ concrete inputs for the scenarios ================== -/

def mkAcct (e r : String) (rl : Option Nat) : AntigravityAccount :=
  { email := e, refreshToken := r, projectId := "proj", rateLimitResetTime := rl }

/-- Two healthy accounts in use-until-exhausted mode, account 0 active. -/
def cfgBug : AccountsConfig :=
  { accounts := [mkAcct "a0@example.com" "r0" none, mkAcct "a1@example.com" "r1" none],
    activeIndex := 0, rotationMode := RotationMode.useUntilExhausted }

/-- Token endpoint: account 0 fails, account 1 succeeds. -/
def outcomesBug : Nat → RefreshOutcome :=
  fun i => if i = 0 then RefreshOutcome.err "boom" else RefreshOutcome.ok "tok1" 3600

/-- A pool holding exactly one account, which is active. -/
def cfgSolo : AccountsConfig :=
  { accounts := [mkAcct "solo@example.com" "rs" none],
    activeIndex := 0, rotationMode := RotationMode.roundRobin }

/-- Three healthy accounts in round-robin mode, account 0 active. -/
def cfgRR : AccountsConfig :=
  { accounts := [mkAcct "a@x.com" "ra" none, mkAcct "b@x.com" "rb" none,
                 mkAcct "c@x.com" "rc" none],
    activeIndex := 0, rotationMode := RotationMode.roundRobin }

/-- Scenario C: both accounts rate limited at time 0, resets at 10 s and
30 s. -/
def cfgLimited : AccountsConfig :=
  { accounts := [mkAcct "a@x.com" "ra" (some 10000), mkAcct "b@x.com" "rb" (some 30000)],
    activeIndex := 0, rotationMode := RotationMode.useUntilExhausted }

def profWork : Profile :=
  { id := "p1", label := "work", savedAt := 0, oauth := { refresh := some "rw1" } }

def profWork2 : Profile :=
  { id := "p2", label := "work2", savedAt := 0, oauth := { refresh := some "rw2" } }

/-- The store of scenario E. -/
def storeWork : StoreV2 :=
  { profiles := [profWork, profWork2], activeProfileId := some "p1" }

/-- A live credential with a refresh secret not yet stored anywhere. -/
def liveNew : OAuthCred := { refresh := some "Rnew", accountId := some "acct-12345678" }

/-- Scenario D: a legacy previous slot holding an oauth credential. -/
def slotPrev : LegacySlot :=
  { label := "personal", savedAt := 5, oauth := { refresh := some "rp" } }

def legacyPrevOnly : LegacyStore :=
  { activeSlot := some LegacySlotName.previous, slotPrevious := some slotPrev }

/-- Token endpoint that rejects every account. -/
def outcomesAllErr : Nat → RefreshOutcome := fun _ => RefreshOutcome.err "bad"

/- ========================= helper lemmas ============================= -/

lemma switchToNextAccount_accounts (cfg : AccountsConfig) (now : Nat) :
    (switchToNextAccount cfg now).1.accounts = cfg.accounts := by
  simp only [switchToNextAccount]
  split <;> rfl

lemma switchToNextAccount_rotationMode (cfg : AccountsConfig) (now : Nat) :
    (switchToNextAccount cfg now).1.rotationMode = cfg.rotationMode := by
  simp only [switchToNextAccount]
  split <;> rfl

/-- The value switchToNextAccount returns is config.activeIndex read after
the update, so it always equals the active index of the updated config. -/
lemma switchToNextAccount_snd (cfg : AccountsConfig) (now : Nat) :
    (switchToNextAccount cfg now).2 = ((switchToNextAccount cfg now).1.activeIndex : Int) := by
  simp only [switchToNextAccount]
  split <;> rfl

lemma selectForRefresh_accounts (cfg : AccountsConfig) (now : Nat) :
    (selectForRefresh cfg now).accounts = cfg.accounts := by
  simp only [selectForRefresh]
  split <;> rfl

lemma soonestLoop_inv (full : List AntigravityAccount) :
    ∀ (l : List AntigravityAccount) (i best t : Nat),
      full.drop i = l → i ≤ full.length → best < i → resetKey full best = t →
      (∀ j, j < i → t ≤ resetKey full j) →
      (∀ j, j < best → t < resetKey full j) →
      (soonestLoop l i best (some t)).1 < full.length ∧
      (∀ j, j < full.length →
        resetKey full (soonestLoop l i best (some t)).1 ≤ resetKey full j) ∧
      (∀ j, j < (soonestLoop l i best (some t)).1 →
        resetKey full (soonestLoop l i best (some t)).1 < resetKey full j) := by
  intro l
  induction l with
  | nil =>
    intro i best t hdrop hi hbest hkey hmin hstrict
    have hlen : full.length ≤ i := List.drop_eq_nil_iff.mp hdrop
    simp only [soonestLoop]
    refine ⟨by omega, ?_, ?_⟩
    · intro j hj
      rw [hkey]
      exact hmin j (by omega)
    · intro j hj
      rw [hkey]
      exact hstrict j hj
  | cons a rest ih =>
    intro i best t hdrop hi hbest hkey hmin hstrict
    have hget : full[i]? = some a := by
      have h0 : (full.drop i)[0]? = full[i + 0]? := List.getElem?_drop full i 0
      rw [hdrop] at h0
      simpa using h0.symm
    have hlt : i < full.length := by
      rcases List.getElem?_eq_some_iff.mp hget with ⟨h, _⟩
      exact h
    have hdrop' : full.drop (i + 1) = rest := by
      have h1 : List.drop 1 (List.drop i full) = List.drop (i + 1) full := by
        rw [List.drop_drop]
      rw [← h1, hdrop]
      rfl
    have hkeyi : resetKey full i = a.rateLimitResetTime.getD 0 := by
      simp [resetKey, hget]
    simp only [soonestLoop]
    by_cases hc : ltSoonest (a.rateLimitResetTime.getD 0) (some t) = true
    · have hlt2 : a.rateLimitResetTime.getD 0 < t := by
        simpa [ltSoonest] using hc
      rw [if_pos hc]
      refine ih (i + 1) i (a.rateLimitResetTime.getD 0) hdrop' (by omega) (by omega) hkeyi
        ?_ ?_
      · intro j hj
        rcases Nat.lt_succ_iff_lt_or_eq.mp hj with hj' | hj'
        · exact le_of_lt (lt_of_lt_of_le hlt2 (hmin j hj'))
        · subst hj'
          rw [hkeyi]
      · intro j hj
        exact lt_of_lt_of_le hlt2 (hmin j hj)
    · have hge : t ≤ a.rateLimitResetTime.getD 0 := by
        have h2 := hc
        simp only [ltSoonest, decide_eq_true_eq] at h2
        omega
      rw [if_neg hc]
      refine ih (i + 1) best t hdrop' (by omega) (by omega) hkey ?_ hstrict
      intro j hj
      rcases Nat.lt_succ_iff_lt_or_eq.mp hj with hj' | hj'
      · exact hmin j hj'
      · subst hj'
        rw [hkeyi]
        exact hge

/-- The all-rate-limited branch picks a valid index minimizing resetKey, the
first minimum winning. -/
lemma soonestResetIdx_spec (accounts : List AntigravityAccount) (h : accounts ≠ []) :
    soonestResetIdx accounts < accounts.length ∧
    (∀ j, j < accounts.length →
      resetKey accounts (soonestResetIdx accounts) ≤ resetKey accounts j) ∧
    (∀ j, j < soonestResetIdx accounts →
      resetKey accounts (soonestResetIdx accounts) < resetKey accounts j) := by
  match accounts, h with
  | a :: rest, _ =>
    have hfirst : ltSoonest (a.rateLimitResetTime.getD 0) none = true := rfl
    have hkey0 : resetKey (a :: rest) 0 = a.rateLimitResetTime.getD 0 := by
      simp [resetKey]
    have hmain := soonestLoop_inv (a :: rest) rest 1 0 (a.rateLimitResetTime.getD 0)
      rfl (by simp) (by omega) hkey0
      (fun j hj => by
        have hj0 : j = 0 := by omega
        subst hj0
        rw [hkey0])
      (fun j hj => by omega)
    unfold soonestResetIdx
    simp only [soonestLoop]
    rw [if_pos hfirst]
    exact hmain

/-- The fueled cyclic scan equals a find? over the cyclic index sequence of
the given length starting at s. -/
lemma rrScanAux_eq_find (accounts : List AntigravityAccount) (now : Nat)
    (hlen : 0 < accounts.length) :
    ∀ (fuel s : Nat), s < accounts.length →
      rrScanAux accounts now s fuel =
        ((List.range fuel).map (fun k => (s + k) % accounts.length)).find?
          (availIdx accounts now) := by
  intro fuel
  induction fuel with
  | zero =>
    intro s hs
    simp [rrScanAux]
  | succ f ih =>
    intro s hs
    obtain ⟨a, ha⟩ : ∃ a, accounts[s]? = some a := by
      cases hg : accounts[s]? with
      | none =>
        have := List.getElem?_eq_none_iff.mp hg
        omega
      | some a => exact ⟨a, rfl⟩
    have hs0 : (s + 0) % accounts.length = s := by
      simpa using Nat.mod_eq_of_lt hs
    rw [List.range_succ_eq_map, List.map_cons, List.find?_cons]
    have havs : availIdx accounts now s = isAvailableAt a now := by
      simp [availIdx, ha]
    by_cases hava : isAvailableAt a now = true
    · have h1 : availIdx accounts now ((s + 0) % accounts.length) = true := by
        rw [hs0, havs]
        exact hava
      rw [h1]
      simp only [rrScanAux, ha]
      rw [if_pos hava, hs0]
    · have hava' : isAvailableAt a now = false := by
        cases h : isAvailableAt a now
        · rfl
        · exact absurd h hava
      have h1 : availIdx accounts now ((s + 0) % accounts.length) = false := by
        rw [hs0, havs]
        exact hava'
      rw [h1]
      simp only [rrScanAux, ha]
      rw [if_neg hava]
      have hs' : (s + 1) % accounts.length < accounts.length := Nat.mod_lt _ hlen
      rw [ih ((s + 1) % accounts.length) hs']
      congr 1
      rw [List.map_map]
      apply List.map_congr_left
      intro k _
      show ((s + 1) % accounts.length + k) % accounts.length
          = (s + Nat.succ k) % accounts.length
      rw [Nat.mod_add_mod]
      congr 1
      omega

/-- A successful cyclic scan yields an in-bounds index. -/
lemma rrScanAux_some_lt (accounts : List AntigravityAccount) (now : Nat) :
    ∀ (fuel s j : Nat), rrScanAux accounts now s fuel = some j → j < accounts.length := by
  intro fuel
  induction fuel with
  | zero =>
    intro s j h
    simp [rrScanAux] at h
  | succ f ih =>
    intro s j h
    simp only [rrScanAux] at h
    cases hg : accounts[s]? with
    | none =>
      simp only [hg] at h
      exact absurd h (by simp)
    | some a =>
      simp only [hg] at h
      by_cases hava : isAvailableAt a now = true
      · rw [if_pos hava] at h
        cases h
        exact (List.getElem?_eq_some_iff.mp hg).1
      · rw [if_neg hava] at h
        exact ih _ _ h

/-- When some index is available, the cyclic candidate sequence starting at
an in-bounds position contains it, so the spec-side scan finds something. -/
lemma cyclicFirstAvailable_isSome (accounts : List AntigravityAccount) (now start : Nat)
    (hlen : 0 < accounts.length) (hs : start < accounts.length) (i : Nat)
    (hi : i < accounts.length) (hav : availIdx accounts now i = true) :
    ∃ j, cyclicFirstAvailable accounts now start = some j := by
  cases hfind : cyclicFirstAvailable accounts now start with
  | some j => exact ⟨j, rfl⟩
  | none =>
    exfalso
    have hall := List.find?_eq_none.mp hfind
    have hmem : i ∈ (List.range accounts.length).map
        (fun k => (start + k) % accounts.length) := by
      refine List.mem_map.mpr ⟨(accounts.length + i - start) % accounts.length, ?_, ?_⟩
      · exact List.mem_range.mpr (Nat.mod_lt _ hlen)
      · have h1 : (start + (accounts.length + i - start) % accounts.length)
            % accounts.length
            = (start + (accounts.length + i - start)) % accounts.length := by
          conv_lhs => rw [Nat.add_mod]
          conv_rhs => rw [Nat.add_mod]
          rw [Nat.mod_mod_of_dvd _ (dvd_refl _)]
        have h2 : start + (accounts.length + i - start) = accounts.length + i := by
          omega
        rw [h1, h2, Nat.add_mod_left]
        exact Nat.mod_eq_of_lt hi
    exact absurd hav (by simpa using hall i hmem)

/-- A successful linear scan yields an index in [k, k + length). -/
lemma findFirstAvailableAux_some (now : Nat) :
    ∀ (l : List AntigravityAccount) (k j : Nat),
      findFirstAvailableAux now l k = some j → k ≤ j ∧ j < k + l.length := by
  intro l
  induction l with
  | nil =>
    intro k j h
    simp [findFirstAvailableAux] at h
  | cons a rest ih =>
    intro k j h
    simp only [findFirstAvailableAux] at h
    by_cases hava : isAvailableAt a now = true
    · rw [if_pos hava] at h
      cases h
      simp
    · rw [if_neg hava] at h
      have := ih (k + 1) j h
      constructor
      · omega
      · simp only [List.length_cons]
        omega

/-- A failed linear scan means no account is available. -/
lemma findFirstAvailableAux_none (now : Nat) :
    ∀ (l : List AntigravityAccount) (k : Nat),
      findFirstAvailableAux now l k = none →
      ∀ a ∈ l, isAvailableAt a now = false := by
  intro l
  induction l with
  | nil =>
    intro k _ a ha
    simp at ha
  | cons b rest ih =>
    intro k h a ha
    simp only [findFirstAvailableAux] at h
    by_cases havb : isAvailableAt b now = true
    · rw [if_pos havb] at h
      exact absurd h (by simp)
    · rw [if_neg havb] at h
      rcases List.mem_cons.mp ha with rfl | ha'
      · cases hb : isAvailableAt a now
        · rfl
        · exact absurd hb havb
      · exact ih (k + 1) h a ha'

/-- A non-empty availability filter yields a member available account. -/
lemma available_exists (cfg : AccountsConfig) (now : Nat)
    (hav : getAvailableAccounts cfg now ≠ []) :
    ∃ a ∈ cfg.accounts, isAvailableAt a now = true := by
  by_contra hno
  push_neg at hno
  apply hav
  apply List.filter_eq_nil_iff.mpr
  intro a ha
  simp only [Bool.not_eq_true]
  cases h : isAvailableAt a now
  · rfl
  · exact absurd h (by simpa using hno a ha)

/-- Bounds for the use-until-exhausted tail when some account is available. -/
lemma ueSelect_bounds (cfg : AccountsConfig) (now : Nat)
    (hav : ∃ a ∈ cfg.accounts, isAvailableAt a now = true) :
    0 ≤ ueSelect cfg now ∧ ueSelect cfg now < (cfg.accounts.length : Int) := by
  obtain ⟨i, hff⟩ : ∃ i, findFirstAvailableAux now cfg.accounts 0 = some i := by
    cases hff : findFirstAvailableAux now cfg.accounts 0 with
    | some i => exact ⟨i, rfl⟩
    | none =>
      exfalso
      rcases hav with ⟨a, hamem, haav⟩
      have hcontra := findFirstAvailableAux_none now cfg.accounts 0 hff a hamem
      rw [haav] at hcontra
      simp at hcontra
  have hilt : i < cfg.accounts.length := by
    have := findFirstAvailableAux_some now cfg.accounts 0 i hff
    omega
  cases hga : cfg.accounts[cfg.activeIndex]? with
  | some current =>
    by_cases hcur : isAvailableAt current now = true
    · have hact : cfg.activeIndex < cfg.accounts.length :=
        (List.getElem?_eq_some_iff.mp hga).1
      simp only [ueSelect, hga, hcur, if_true]
      constructor <;> omega
    · have hcur' : isAvailableAt current now = false := by
        cases h : isAvailableAt current now
        · rfl
        · exact absurd h hcur
      simp only [ueSelect, hga, hcur', Bool.false_eq_true, if_false, hff]
      constructor <;> omega
  | none =>
    simp only [ueSelect, hga, Bool.false_eq_true, if_false, hff]
    constructor <;> omega

lemma exists_of_filter_pos {α : Type} (p : α → Bool) (l : List α)
    (h : 0 < (l.filter p).length) : ∃ x ∈ l, p x = true := by
  rcases hx : l.filter p with _ | ⟨x, xs⟩
  · rw [hx] at h
    simp at h
  · have hmem : x ∈ l.filter p := by
      rw [hx]
      exact List.mem_cons_self x xs
    exact ⟨x, (List.mem_filter.mp hmem).1, (List.mem_filter.mp hmem).2⟩

lemma filter_pos_of_mem {α : Type} (p : α → Bool) (l : List α) (x : α)
    (hx : x ∈ l) (hpx : p x = true) : 0 < (l.filter p).length :=
  List.length_pos.mpr (List.ne_nil_of_mem (List.mem_filter.mpr ⟨hx, hpx⟩))

lemma updateFirstByRefresh_length (r : String) (f : Profile → Profile) :
    ∀ l : List Profile, (updateFirstByRefresh r f l).length = l.length := by
  intro l
  induction l with
  | nil => rfl
  | cons p ps ih =>
    simp only [updateFirstByRefresh]
    by_cases hp : (p.oauth.refresh == some r) = true
    · rw [if_pos hp]
      simp
    · rw [if_neg hp]
      simp [ih]

lemma updateFirstByRefresh_count (r : String) (f : Profile → Profile)
    (hf : ∀ p : Profile, p.oauth.refresh = some r → (f p).oauth.refresh = some r) :
    ∀ l : List Profile,
      countByRefreshSecret (updateFirstByRefresh r f l) r = countByRefreshSecret l r := by
  intro l
  induction l with
  | nil => rfl
  | cons p ps ih =>
    simp only [updateFirstByRefresh]
    by_cases hp : (p.oauth.refresh == some r) = true
    · rw [if_pos hp]
      have hpr : p.oauth.refresh = some r := by simpa using hp
      have hfr : ((f p).oauth.refresh == some r) = true := by simp [hf p hpr]
      simp only [countByRefreshSecret, List.filter_cons, hp, hfr, if_true]
      simp
    · rw [if_neg hp]
      have hp' : (p.oauth.refresh == some r) = false := by
        cases h : (p.oauth.refresh == some r)
        · rfl
        · exact absurd h hp
      simp only [countByRefreshSecret, List.filter_cons, hp', Bool.false_eq_true, if_false]
      exact ih

/-- In-place update of the first profile matching the refresh secret:
the list then contains the updated image of the profile find? returns. -/
lemma updateFirstByRefresh_mem_id (r : String) (f : Profile → Profile) :
    ∀ (l : List Profile) (existing : Profile),
      l.find? (fun p => p.oauth.refresh == some r) = some existing →
      ∃ q ∈ updateFirstByRefresh r f l, q = f existing := by
  intro l
  induction l with
  | nil =>
    intro e h
    simp at h
  | cons p ps ih =>
    intro e h
    simp only [updateFirstByRefresh]
    by_cases hp : (p.oauth.refresh == some r) = true
    · rw [if_pos hp]
      simp only [List.find?_cons, hp] at h
      cases h
      exact ⟨f p, List.mem_cons_self _ _, rfl⟩
    · have hp' : (p.oauth.refresh == some r) = false := by
        cases hx : (p.oauth.refresh == some r)
        · rfl
        · exact absurd hx hp
      rw [if_neg hp]
      simp only [List.find?_cons, hp'] at h
      rcases ih e h with ⟨q, hq, hqe⟩
      exact ⟨q, List.mem_cons_of_mem _ hq, hqe⟩

/-- Totality and bounds of getNextAccountIndex: -1 exactly on an empty
pool, an index in [0, length) otherwise. -/
lemma getNextAccountIndex_bounds (cfg : AccountsConfig) (now : Nat) (force : Bool) :
    (cfg.accounts = [] → getNextAccountIndex cfg now force = -1) ∧
    (cfg.accounts ≠ [] →
      0 ≤ getNextAccountIndex cfg now force ∧
      getNextAccountIndex cfg now force < (cfg.accounts.length : Int)) := by
  constructor
  · intro h
    simp [getNextAccountIndex, h]
  · intro hne
    have hlen : 0 < cfg.accounts.length := List.length_pos.mpr hne
    by_cases hav : (getAvailableAccounts cfg now).length = 0
    · have h1 : getNextAccountIndex cfg now force = (soonestResetIdx cfg.accounts : Int) := by
        simp only [getNextAccountIndex]
        rw [if_neg (by omega), if_pos hav]
      rw [h1]
      have hb := (soonestResetIdx_spec cfg.accounts hne).1
      constructor
      · exact Int.natCast_nonneg _
      · exact_mod_cast hb
    · have hexists : ∃ a ∈ cfg.accounts, isAvailableAt a now = true :=
        available_exists cfg now (fun h => hav (by rw [h]; rfl))
      by_cases hmode : cfg.rotationMode = RotationMode.roundRobin ∨ force = true
      · cases hscan : rrScanAux cfg.accounts now
            ((cfg.activeIndex + 1) % cfg.accounts.length) cfg.accounts.length with
        | some idx =>
          have h1 : getNextAccountIndex cfg now force = (idx : Int) := by
            simp only [getNextAccountIndex]
            rw [if_neg (by omega), if_neg hav, if_pos hmode, hscan]
          rw [h1]
          have hb := rrScanAux_some_lt cfg.accounts now _ _ _ hscan
          constructor
          · exact Int.natCast_nonneg _
          · exact_mod_cast hb
        | none =>
          have h1 : getNextAccountIndex cfg now force = ueSelect cfg now := by
            simp only [getNextAccountIndex]
            rw [if_neg (by omega), if_neg hav, if_pos hmode, hscan]
          rw [h1]
          exact ueSelect_bounds cfg now hexists
      · have h1 : getNextAccountIndex cfg now force = ueSelect cfg now := by
          simp only [getNextAccountIndex]
          rw [if_neg (by omega), if_neg hav, if_neg hmode]
        rw [h1]
        exact ueSelect_bounds cfg now hexists

/-- ag-remove splice-and-clamp: activeIndex 0 when the pool empties, a
valid index otherwise. -/
lemma agRemoveAt_post (cfg : AccountsConfig) (idx : Nat) :
    ((agRemoveAt cfg idx).accounts = [] → (agRemoveAt cfg idx).activeIndex = 0) ∧
    ((agRemoveAt cfg idx).accounts ≠ [] →
      (agRemoveAt cfg idx).activeIndex < (agRemoveAt cfg idx).accounts.length) := by
  constructor
  · intro h
    have hlen : (cfg.accounts.eraseIdx idx).length = 0 := by
      simp only [agRemoveAt] at h
      rw [h]
      rfl
    simp only [agRemoveAt]
    split
    · omega
    · omega
  · intro h
    have hlen : 0 < (cfg.accounts.eraseIdx idx).length := by
      simp only [agRemoveAt] at h
      exact List.length_pos.mpr h
    simp only [agRemoveAt]
    split
    · omega
    · next hcond => omega

lemma agRemoveAt_agInv (cfg : AccountsConfig) (idx : Nat) : agInv (agRemoveAt cfg idx) := by
  rcases agRemoveAt_post cfg idx with ⟨h1, h2⟩
  by_cases h : (agRemoveAt cfg idx).accounts = []
  · left
    exact ⟨h, h1 h⟩
  · right
    exact h2 h

lemma agRemove_agInv (cfg : AccountsConfig) (args : String) (hinv : agInv cfg) :
    agInv (agRemove cfg args) := by
  cases hidx : agFindRemovalIndex cfg (strTrim args) with
  | none => simpa [agRemove, hidx] using hinv
  | some i =>
    simp only [agRemove, hidx]
    exact agRemoveAt_agInv cfg i

lemma agImport_agInv (cfg : AccountsConfig) (acct : AntigravityAccount)
    (hinv : agInv cfg) : agInv (agImport cfg acct).1 := by
  cases hfind : cfg.accounts.find? (fun a => a.refreshToken == acct.refreshToken) with
  | some existing =>
    simpa [agImport, hfind] using hinv
  | none =>
    simp only [agImport, hfind]
    rcases hinv with ⟨hemp, hzero⟩ | hlt
    · right
      simp [agInv, hemp, hzero]
    · right
      simp only [List.length_append, List.length_cons]
      omega

lemma markAccountRateLimited_agInv (cfg : AccountsConfig) (idx resetMs now : Nat)
    (hinv : agInv cfg) : agInv (markAccountRateLimited cfg idx resetMs now) := by
  cases hg : cfg.accounts[idx]? with
  | none => simpa [markAccountRateLimited, hg] using hinv
  | some a =>
    simp only [markAccountRateLimited, hg]
    right
    rcases hinv with ⟨hemp, hz⟩ | hact
    · rw [hemp] at hg
      simp at hg
    · simpa [List.length_set] using hact

lemma selectForRefresh_agInv (cfg : AccountsConfig) (now : Nat) (hinv : agInv cfg) :
    agInv (selectForRefresh cfg now) := by
  simp only [selectForRefresh]
  split
  · by_cases hne : cfg.accounts = []
    · have h1 : getNextAccountIndex cfg now false = -1 :=
        (getNextAccountIndex_bounds cfg now false).1 hne
      left
      constructor
      · exact hne
      · show (getNextAccountIndex cfg now false).toNat = 0
        rw [h1]
        rfl
    · rcases (getNextAccountIndex_bounds cfg now false).2 hne with ⟨h2a, h2b⟩
      right
      show (getNextAccountIndex cfg now false).toNat < cfg.accounts.length
      omega
  · exact hinv

lemma switchToNextAccount_agInv (cfg : AccountsConfig) (now : Nat) (hinv : agInv cfg) :
    agInv (switchToNextAccount cfg now).1 := by
  simp only [switchToNextAccount]
  split
  · next hcond =>
    by_cases hne : cfg.accounts = []
    · have h1 : getNextAccountIndex cfg now true = -1 :=
        (getNextAccountIndex_bounds cfg now true).1 hne
      rw [h1] at hcond
      exact absurd hcond.1 (by decide)
    · rcases (getNextAccountIndex_bounds cfg now true).2 hne with ⟨h2a, h2b⟩
      right
      show (getNextAccountIndex cfg now true).toNat < cfg.accounts.length
      omega
  · exact hinv

lemma piRefreshToken_agInv (cfg : AccountsConfig) (now : Nat)
    (outcomes : Nat → RefreshOutcome) (hinv : agInv cfg) :
    agInv (piRefreshToken cfg now outcomes).1 := by
  by_cases hneg : getNextAccountIndex cfg now false < 0
  · simp only [piRefreshToken]
    rw [if_pos hneg]
    exact hinv
  · have hinv' : agInv (selectForRefresh cfg now) := selectForRefresh_agInv cfg now hinv
    simp only [piRefreshToken]
    rw [if_neg hneg]
    cases hacct : (selectForRefresh cfg
        now).accounts[(selectForRefresh cfg now).activeIndex]? with
    | none =>
      simp only [hacct]
      exact hinv'
    | some account =>
      have hlt : (selectForRefresh cfg now).activeIndex
          < (selectForRefresh cfg now).accounts.length :=
        (List.getElem?_eq_some_iff.mp hacct).1
      cases hgv : getValidAccessToken account
          (outcomes (selectForRefresh cfg now).activeIndex) now with
      | ok pair =>
        obtain ⟨account1, accessToken⟩ := pair
        simp only [hacct, hgv]
        right
        simpa [List.length_set] using hlt
      | error e =>
        simp only [hacct, hgv]
        rw [switchToNextAccount_snd]
        rw [if_neg (by simp)]
        apply switchToNextAccount_agInv
        right
        simpa [List.length_set] using hlt

lemma codexswapAdd_storeInv (store : StoreV2) (live : OAuthCred)
    (inferredEmail : Option String) (desired : String) (now : Nat) (freshId : String) :
    storeInv (codexswapAdd store live inferredEmail desired now freshId) := by
  have hgen : ∀ (st : StoreV2) (prof : Profile),
      storeInv { st with
        profiles := st.profiles ++ [prof], activeProfileId := some prof.id } := by
    intro st prof
    right
    exact ⟨prof, by simp, rfl⟩
  cases hr : live.refresh with
  | none =>
    simp only [codexswapAdd, findByRefresh, hr]
    exact hgen store _
  | some r =>
    cases hfind : store.profiles.find? (fun p => p.oauth.refresh == some r) with
    | none =>
      simp only [codexswapAdd, findByRefresh, hr, hfind]
      exact hgen store _
    | some existing =>
      have hprofiles : (codexswapAdd store live inferredEmail desired now freshId).profiles
          = updateFirstByRefresh r
            (fun p => { p with
              oauth := live, savedAt := now, email := inferredEmail,
              accountId := live.accountId,
              label := if sanitizeLabel desired ≠ "" then
                  ensureUniqueLabel store.profiles (sanitizeLabel desired) (some p.id)
                else p.label }) store.profiles := by
        simp [codexswapAdd, findByRefresh, hr, hfind]
      have hactive : (codexswapAdd store live inferredEmail desired now
          freshId).activeProfileId = some existing.id := by
        simp [codexswapAdd, findByRefresh, hr, hfind]
      rcases updateFirstByRefresh_mem_id r
          (fun p => { p with
            oauth := live, savedAt := now, email := inferredEmail,
            accountId := live.accountId,
            label := if sanitizeLabel desired ≠ "" then
                ensureUniqueLabel store.profiles (sanitizeLabel desired) (some p.id)
              else p.label }) store.profiles existing hfind with ⟨q, hq, hqe⟩
      right
      refine ⟨q, ?_, ?_⟩
      · rw [hprofiles]
        exact hq
      · rw [hactive, hqe]

lemma codexswapRm_storeInv (store : StoreV2) (rest : String) (hinv : storeInv store) :
    storeInv (codexswapRm store rest) := by
  cases hres : resolveProfile store.profiles rest with
  | none =>
    simpa [codexswapRm, hres] using hinv
  | some target =>
    simp only [codexswapRm, hres]
    by_cases hact : store.activeProfileId = some target.id
    · rw [if_pos hact]
      cases hhead : (store.profiles.filter (fun p => p.id != target.id)).head? with
      | none =>
        left
        simp [hhead]
      | some p =>
        right
        have hpmem : p ∈ store.profiles.filter (fun q => q.id != target.id) :=
          List.mem_of_mem_head? (Option.mem_def.mpr hhead)
        exact ⟨p, hpmem, by simp [hhead]⟩
    · rw [if_neg hact]
      rcases hinv with hnone | ⟨p, hp, hpid⟩
      · left
        exact hnone
      · right
        have hne : p.id ≠ target.id := by
          intro heq
          apply hact
          rw [hpid, heq]
        refine ⟨p, List.mem_filter.mpr ⟨hp, by simpa [bne] using hne⟩, hpid⟩

lemma migrateLegacyStore_storeInv (legacy : LegacyStore) (now : Nat) :
    storeInv (migrateLegacyStore legacy now) := by
  simp only [migrateLegacyStore]
  cases hact : legacy.activeSlot with
  | none =>
    left
    rfl
  | some slotName =>
    cases hfind : (addLegacy legacy LegacySlotName.previous now
        (addLegacy legacy LegacySlotName.current now [])).find?
        (fun p => p.id == "legacy_" ++ legacySlotNameStr slotName) with
    | none =>
      left
      simp [hfind]
    | some p =>
      right
      refine ⟨p, List.mem_of_find?_eq_some hfind, ?_⟩
      simp [hfind]

/- ========================= claim theorems ============================ -/

/-- Claim C10: getNextAccountIndex is total and bounds-safe: for every
configuration and time it returns -1 exactly when the account list is empty,
and otherwise an index i with 0 ≤ i < accounts.length, even when every
account is rate limited or the stored active index is out of range. -/
theorem claim_C10_next_index_bounds :
    ∀ (cfg : AccountsConfig) (now : Nat) (force : Bool),
      (cfg.accounts = [] → getNextAccountIndex cfg now force = -1) ∧
      (cfg.accounts ≠ [] →
        0 ≤ getNextAccountIndex cfg now force ∧
        getNextAccountIndex cfg now force < (cfg.accounts.length : Int)) :=
  fun cfg now force => getNextAccountIndex_bounds cfg now force

/-- Witness for claim C10 at a concrete all-rate-limited two-account pool. -/
theorem claim_C10_next_index_bounds_witness :
    cfgLimited.accounts ≠ [] ∧
    0 ≤ getNextAccountIndex cfgLimited 0 false ∧
    getNextAccountIndex cfgLimited 0 false < (cfgLimited.accounts.length : Int) :=
  ⟨by decide, (claim_C10_next_index_bounds cfgLimited 0 false).2 (by decide)⟩

/-- Claim C3: on a non-empty pool with at least one available account, in
round-robin mode or when forced, getNextAccountIndex returns exactly the
first available index of the cyclic forward scan starting just after the
active index, and that index is available (never a rate-limited one). -/
theorem claim_C3_round_robin_scan (cfg : AccountsConfig) (now : Nat) (force : Bool)
    (hne : cfg.accounts ≠ [])
    (hav : getAvailableAccounts cfg now ≠ [])
    (hmode : cfg.rotationMode = RotationMode.roundRobin ∨ force = true) :
    ∃ i : Nat,
      getNextAccountIndex cfg now force = (i : Int) ∧
      cyclicFirstAvailable cfg.accounts now
        ((cfg.activeIndex + 1) % cfg.accounts.length) = some i ∧
      availIdx cfg.accounts now i = true := by
  have hlen : 0 < cfg.accounts.length := List.length_pos.mpr hne
  have hs : (cfg.activeIndex + 1) % cfg.accounts.length < cfg.accounts.length :=
    Nat.mod_lt _ hlen
  obtain ⟨a, hamem, haav⟩ := available_exists cfg now hav
  obtain ⟨iw, hiw⟩ := List.mem_iff_getElem?.mp hamem
  have hiwlt : iw < cfg.accounts.length := (List.getElem?_eq_some_iff.mp hiw).1
  have hiwav : availIdx cfg.accounts now iw = true := by
    simp [availIdx, hiw, haav]
  obtain ⟨j, hj⟩ := cyclicFirstAvailable_isSome cfg.accounts now _ hlen hs iw hiwlt hiwav
  have hj' : ((List.range cfg.accounts.length).map
      (fun k => ((cfg.activeIndex + 1) % cfg.accounts.length + k) % cfg.accounts.length)).find?
      (availIdx cfg.accounts now) = some j := hj
  have hscan : rrScanAux cfg.accounts now ((cfg.activeIndex + 1) % cfg.accounts.length)
      cfg.accounts.length = some j := by
    rw [rrScanAux_eq_find cfg.accounts now hlen cfg.accounts.length _ hs]
    exact hj'
  refine ⟨j, ?_, hj, List.find?_some hj'⟩
  simp only [getNextAccountIndex]
  rw [if_neg (by omega),
    if_neg (fun h => hav (List.length_eq_zero.mp h)), if_pos hmode, hscan]

/-- Witness for claim C3: three healthy accounts, active 0, round robin. -/
theorem claim_C3_round_robin_scan_witness :
    cfgRR.accounts ≠ [] ∧ getAvailableAccounts cfgRR 7 ≠ [] ∧
    ∃ i : Nat,
      getNextAccountIndex cfgRR 7 false = (i : Int) ∧
      cyclicFirstAvailable cfgRR.accounts 7
        ((cfgRR.activeIndex + 1) % cfgRR.accounts.length) = some i ∧
      availIdx cfgRR.accounts 7 i = true :=
  ⟨by decide, by decide,
    claim_C3_round_robin_scan cfgRR 7 false (by decide) (by decide) (Or.inl rfl)⟩

/-- Claim C6: on a non-empty pool in which every account is rate limited,
getNextAccountIndex returns the valid index with the soonest reset instant,
ties broken toward the lowest index. -/
theorem claim_C6_soonest_reset (cfg : AccountsConfig) (now : Nat) (force : Bool)
    (hne : cfg.accounts ≠ [])
    (hall : getAvailableAccounts cfg now = []) :
    ∃ i : Nat,
      getNextAccountIndex cfg now force = (i : Int) ∧
      i < cfg.accounts.length ∧
      (∀ j, j < cfg.accounts.length → resetKey cfg.accounts i ≤ resetKey cfg.accounts j) ∧
      (∀ j, j < i → resetKey cfg.accounts i < resetKey cfg.accounts j) := by
  have hlen : 0 < cfg.accounts.length := List.length_pos.mpr hne
  obtain ⟨h1, h2, h3⟩ := soonestResetIdx_spec cfg.accounts hne
  refine ⟨soonestResetIdx cfg.accounts, ?_, h1, h2, h3⟩
  simp only [getNextAccountIndex]
  rw [if_neg (by omega), if_pos (by rw [hall]; rfl)]

/-- Witness for claim C6 at scenario C (resets in 10 s and 30 s, now = 0):
the returned index is 0, the sooner-resetting account. -/
theorem claim_C6_soonest_reset_witness :
    cfgLimited.accounts ≠ [] ∧ getAvailableAccounts cfgLimited 0 = [] ∧
    ∃ i : Nat,
      getNextAccountIndex cfgLimited 0 false = (i : Int) ∧
      i < cfgLimited.accounts.length ∧
      (∀ j, j < cfgLimited.accounts.length →
        resetKey cfgLimited.accounts i ≤ resetKey cfgLimited.accounts j) ∧
      (∀ j, j < i → resetKey cfgLimited.accounts i < resetKey cfgLimited.accounts j) :=
  ⟨by decide, by decide, claim_C6_soonest_reset cfgLimited 0 false (by decide) (by decide)⟩

/-- Claim C1 (code bug in the source): the provider refreshToken hook is
meant to attempt exactly one fallback retry after a failed token retrieval,
but switchToNextAccount returns config.activeIndex read after its own
update, so the retry guard fallbackIdx != config.activeIndex is false on
every execution (first conjunct) and the hook surfaces the original error
without ever retrying — here concretely: account 0's retrieval fails while
account 1 is available and its retrieval would have succeeded, yet the hook
returns the account-0 error (after force-advancing the active index). -/
theorem claim_C1_fallback_never_retried :
    (∀ (cfg : AccountsConfig) (now : Nat),
      (switchToNextAccount cfg now).2
        = ((switchToNextAccount cfg now).1.activeIndex : Int)) ∧
    (piRefreshToken cfgBug 1000 outcomesBug).2
      = Except.error "Token refresh failed for a0@example.com: boom" ∧
    (piRefreshToken cfgBug 1000 outcomesBug).1.activeIndex = 1 ∧
    getAvailableAccounts cfgBug 1000 = cfgBug.accounts ∧
    cfgBug.accounts[1]? = some (mkAcct "a1@example.com" "r1" none) ∧
    (getValidAccessToken (mkAcct "a1@example.com" "r1" none) (outcomesBug 1) 1000).isOk
      = true :=
  ⟨switchToNextAccount_snd, rfl, rfl, rfl, rfl, rfl⟩

/-- Claim C9: whenever the account selected by the refreshToken hook has no
valid cached token and its token-endpoint call fails, the hook propagates
the formatted failure text, records it as the account's lastError, and
leaves every account's long-lived refresh secret unchanged. -/
theorem claim_C9_refresh_failure_frame
    (cfg : AccountsConfig) (now : Nat) (outcomes : Nat → RefreshOutcome)
    (errText : String) (account : AntigravityAccount)
    (hsel : ¬ getNextAccountIndex cfg now false < 0)
    (hacct : (selectForRefresh cfg now).accounts[(selectForRefresh cfg now).activeIndex]?
      = some account)
    (hcache : tokenCacheValid account now = false)
    (houtcome : outcomes (selectForRefresh cfg now).activeIndex
      = RefreshOutcome.err errText) :
    (piRefreshToken cfg now outcomes).2
      = Except.error ("Token refresh failed for " ++ account.email ++ ": " ++ errText) ∧
    (∃ a', (piRefreshToken cfg now
        outcomes).1.accounts[(selectForRefresh cfg now).activeIndex]? = some a' ∧
      a'.lastError = some ("Token refresh failed for " ++ account.email ++ ": " ++ errText) ∧
      a'.refreshToken = account.refreshToken) ∧
    (∀ j : Nat, ((piRefreshToken cfg now outcomes).1.accounts[j]?).map
        (fun a => a.refreshToken) = (cfg.accounts[j]?).map (fun a => a.refreshToken)) := by
  have hgv : getValidAccessToken account (outcomes (selectForRefresh cfg now).activeIndex) now
      = Except.error ("Token refresh failed for " ++ account.email ++ ": " ++ errText) := by
    unfold getValidAccessToken
    rw [if_neg (by simp [hcache])]
    unfold refreshAndStore refreshAccessToken
    rw [houtcome]
  have hidx : (selectForRefresh cfg now).activeIndex
      < (selectForRefresh cfg now).accounts.length :=
    (List.getElem?_eq_some_iff.mp hacct).1
  have hacct' : cfg.accounts[(selectForRefresh cfg now).activeIndex]? = some account := by
    rw [← selectForRefresh_accounts cfg now]
    exact hacct
  have hres : piRefreshToken cfg now outcomes
      = ((switchToNextAccount
            { selectForRefresh cfg now with
              accounts := (selectForRefresh cfg now).accounts.set
                (selectForRefresh cfg now).activeIndex
                { account with
                  lastError :=
                    some ("Token refresh failed for " ++ account.email ++ ": " ++ errText) } }
            now).1,
          Except.error ("Token refresh failed for " ++ account.email ++ ": " ++ errText)) := by
    simp only [piRefreshToken]
    rw [if_neg hsel]
    simp only [hacct, hgv]
    rw [switchToNextAccount_snd]
    rw [if_neg (by simp)]
  have haccs : (piRefreshToken cfg now outcomes).1.accounts
      = cfg.accounts.set (selectForRefresh cfg now).activeIndex
          { account with
            lastError :=
              some ("Token refresh failed for " ++ account.email ++ ": " ++ errText) } := by
    rw [hres]
    rw [switchToNextAccount_accounts]
    rw [selectForRefresh_accounts]
  have hidx' : (selectForRefresh cfg now).activeIndex < cfg.accounts.length := by
    rw [← selectForRefresh_accounts cfg now]
    exact hidx
  refine ⟨by rw [hres], ?_, ?_⟩
  · refine ⟨{ account with
        lastError :=
          some ("Token refresh failed for " ++ account.email ++ ": " ++ errText) }, ?_, rfl, rfl⟩
    rw [haccs]
    exact List.getElem?_set_self hidx'
  · intro j
    rw [haccs]
    by_cases hj : (selectForRefresh cfg now).activeIndex = j
    · subst hj
      rw [List.getElem?_set_self hidx', hacct']
      rfl
    · rw [List.getElem?_set_ne hj]

/-- Witness for claim C9: a single stored account whose refresh is rejected;
the hook returns the formatted error. -/
theorem claim_C9_refresh_failure_frame_witness :
    (¬ getNextAccountIndex cfgSolo 5 false < 0) ∧
    (selectForRefresh cfgSolo 5).accounts[(selectForRefresh cfgSolo 5).activeIndex]?
      = some (mkAcct "solo@example.com" "rs" none) ∧
    tokenCacheValid (mkAcct "solo@example.com" "rs" none) 5 = false ∧
    (piRefreshToken cfgSolo 5 outcomesAllErr).2
      = Except.error "Token refresh failed for solo@example.com: bad" :=
  ⟨by decide, by decide, by decide,
    (claim_C9_refresh_failure_frame cfgSolo 5 outcomesAllErr "bad"
      (mkAcct "solo@example.com" "rs" none)
      (by decide) (by decide) (by decide) rfl).1⟩

/-- Claim C5: the delay extracted from a failure text follows the
most-specific-pattern policy — h/m/s, else m/s, else bare seconds, else the
60 s default (first five conjuncts, including the Scenario B text giving
150000 ms) — and markAccountRateLimited sets the affected account's reset
instant to now plus that delay (last conjunct). -/
theorem claim_C5_delay_extraction :
    extractRetryDelayMs "429 RESOURCE_EXHAUSTED, retry in 2m30s" = 150000 ∧
    extractRetryDelayMs "retry in 1h2m3s" = 3723000 ∧
    extractRetryDelayMs "retry in 2m5s" = 125000 ∧
    extractRetryDelayMs "retry in 45s" = 45000 ∧
    extractRetryDelayMs "quota exceeded, please retry" = 60000 ∧
    (∀ (cfg : AccountsConfig) (idx now : Nat) (msg : String)
        (account : AntigravityAccount), cfg.accounts[idx]? = some account →
      ((markAccountRateLimited cfg idx (extractRetryDelayMs msg) now).accounts[idx]?).map
        (fun a => a.rateLimitResetTime) = some (some (now + extractRetryDelayMs msg))) := by
  refine ⟨by decide, by decide, by decide, by decide, by decide, ?_⟩
  intro cfg idx now msg account hacct
  have hlt : idx < cfg.accounts.length := (List.getElem?_eq_some_iff.mp hacct).1
  simp only [markAccountRateLimited, hacct]
  rw [List.getElem?_set_self hlt]
  rfl

/-- Witness for claim C5: marking account 0 of the one-account pool with the
Scenario B text sets its reset instant to now + 150000. -/
theorem claim_C5_delay_extraction_witness :
    cfgSolo.accounts[0]? = some (mkAcct "solo@example.com" "rs" none) ∧
    ((markAccountRateLimited cfgSolo 0
        (extractRetryDelayMs "429 RESOURCE_EXHAUSTED, retry in 2m30s") 777).accounts[0]?).map
      (fun a => a.rateLimitResetTime)
      = some (some (777 + extractRetryDelayMs "429 RESOURCE_EXHAUSTED, retry in 2m30s")) :=
  ⟨by decide, claim_C5_delay_extraction.2.2.2.2.2 cfgSolo 0 777
    "429 RESOURCE_EXHAUSTED, retry in 2m30s" (mkAcct "solo@example.com" "rs" none) (by decide)⟩

/-- Counterexample to claim C2 as stated: removing the only (and active)
account leaves the pool empty with activeIndex = 0 — a defined value that
designates no element of the empty sequence.  The pool's activeIndex field
(unlike the profile store's activeProfileId) can never become undefined, so
the "undefined when the sequence is empty" half of the claim fails on the
account pool. -/
theorem claim_C2_counterexample :
    (agRemove cfgSolo "1").accounts = [] ∧
    (agRemove cfgSolo "1").activeIndex = 0 ∧
    ¬ (agRemove cfgSolo "1").activeIndex < (agRemove cfgSolo "1").accounts.length :=
  ⟨by decide, by decide, by decide⟩

/-- Claim C2 (amended): after every mutating operation on the pool/store,
the active pointer designates a valid element whenever the sequence is
non-empty; when the sequence is empty, the profile store's activeProfileId
is undefined, while the pool's activeIndex — a non-optional number that can
never be undefined — holds its empty-state value 0.  Conjuncts: removal's
splice-and-clamp yields activeIndex 0 on an emptied pool and a valid index
otherwise; and the invariant (agInv for the pool, storeInv for the store)
is established or preserved by every embedded mutator: ag-remove,
ag-import, markAccountRateLimited, the refreshToken hook's rotation step
(selectForRefresh), switchToNextAccount, the full refreshToken hook,
codexswap add, codexswap rm, and legacy-store migration. -/
theorem claim_C2_active_pointer :
    (∀ (cfg : AccountsConfig) (idx : Nat),
      ((agRemoveAt cfg idx).accounts = [] → (agRemoveAt cfg idx).activeIndex = 0) ∧
      ((agRemoveAt cfg idx).accounts ≠ [] →
        (agRemoveAt cfg idx).activeIndex < (agRemoveAt cfg idx).accounts.length)) ∧
    (∀ (cfg : AccountsConfig) (args : String), agInv cfg → agInv (agRemove cfg args)) ∧
    (∀ (cfg : AccountsConfig) (acct : AntigravityAccount),
      agInv cfg → agInv (agImport cfg acct).1) ∧
    (∀ (cfg : AccountsConfig) (idx resetMs now : Nat),
      agInv cfg → agInv (markAccountRateLimited cfg idx resetMs now)) ∧
    (∀ (cfg : AccountsConfig) (now : Nat), agInv cfg → agInv (selectForRefresh cfg now)) ∧
    (∀ (cfg : AccountsConfig) (now : Nat),
      agInv cfg → agInv (switchToNextAccount cfg now).1) ∧
    (∀ (cfg : AccountsConfig) (now : Nat) (outcomes : Nat → RefreshOutcome),
      agInv cfg → agInv (piRefreshToken cfg now outcomes).1) ∧
    (∀ (store : StoreV2) (live : OAuthCred) (inferredEmail : Option String)
        (desired : String) (now : Nat) (freshId : String),
      storeInv (codexswapAdd store live inferredEmail desired now freshId)) ∧
    (∀ (store : StoreV2) (rest : String),
      storeInv store → storeInv (codexswapRm store rest)) ∧
    (∀ (legacy : LegacyStore) (now : Nat), storeInv (migrateLegacyStore legacy now)) :=
  ⟨agRemoveAt_post, agRemove_agInv, agImport_agInv, markAccountRateLimited_agInv,
    selectForRefresh_agInv, switchToNextAccount_agInv, piRefreshToken_agInv,
    codexswapAdd_storeInv, codexswapRm_storeInv, migrateLegacyStore_storeInv⟩

/-- Witness for claim C2: the two-profile store (its active profile
removed), the one-account pool (import, removal of the sole account, the
rejected-refresh hook run), all preserving the invariants. -/
theorem claim_C2_active_pointer_witness :
    storeInv storeWork ∧ storeInv (codexswapRm storeWork "work") ∧
    agInv cfgSolo ∧ agInv (agImport cfgSolo (mkAcct "new@x.com" "rnew" none)).1 ∧
    agInv (agRemove cfgSolo "1") ∧
    agInv (piRefreshToken cfgSolo 5 outcomesAllErr).1 :=
  ⟨Or.inr ⟨profWork, by decide, rfl⟩,
    claim_C2_active_pointer.2.2.2.2.2.2.2.2.1 storeWork "work"
      (Or.inr ⟨profWork, by decide, rfl⟩),
    Or.inr (by decide),
    claim_C2_active_pointer.2.2.1 cfgSolo (mkAcct "new@x.com" "rnew" none)
      (Or.inr (by decide)),
    claim_C2_active_pointer.2.1 cfgSolo "1" (Or.inr (by decide)),
    claim_C2_active_pointer.2.2.2.2.2.2.1 cfgSolo 5 outcomesAllErr (Or.inr (by decide))⟩

/-- Claim C4: selector resolution order of resolveProfile, first match wins:
Scenario E concretely ("wo" against labels work/work2 is ambiguous and
resolves to none; "work2" resolves to the exact match), an in-bounds 1-based
integer selects positionally, and a substring selector matching two distinct
profiles resolves to none rather than picking the first. -/
theorem claim_C4_resolver_order :
    resolveProfile [profWork, profWork2] "wo" = none ∧
    resolveProfile [profWork, profWork2] "work2" = some profWork2 ∧
    (∀ (profiles : List Profile) (sel : String) (n : Nat),
      strToNat? (strTrim sel) = some n → 1 ≤ n → n ≤ profiles.length →
      resolveProfile profiles sel = profiles[n - 1]?) ∧
    (∀ (profiles : List Profile) (sel : String) (p q : Profile),
      strToNat? (strTrim sel) = none →
      profiles.find? (exactMatchPred (strToLower (strTrim sel))) = none →
      p ∈ profiles.filter (fuzzyMatchPred (strToLower (strTrim sel))) →
      q ∈ profiles.filter (fuzzyMatchPred (strToLower (strTrim sel))) →
      p ≠ q →
      resolveProfile profiles sel = none) := by
  refine ⟨by decide, by decide, ?_, ?_⟩
  · intro profiles sel n hnum h1 h2
    have hne : ¬ strTrim sel = "" := by
      intro h
      rw [h] at hnum
      have hnone : strToNat? "" = none := rfl
      rw [hnone] at hnum
      cases hnum
    obtain ⟨p, hp⟩ : ∃ p, profiles[n - 1]? = some p := by
      cases hg : profiles[n - 1]? with
      | none =>
        have := List.getElem?_eq_none_iff.mp hg
        omega
      | some p => exact ⟨p, rfl⟩
    simp only [resolveProfile, hnum]
    rw [if_neg hne, if_pos ⟨h1, h2⟩, hp]
  · intro profiles sel p q hnum hexact hp hq hne
    by_cases htriv : strTrim sel = ""
    · simp only [resolveProfile]
      rw [if_pos htriv]
    · simp only [resolveProfile, hnum, hexact]
      rw [if_neg htriv]
      cases hfil : profiles.filter (fuzzyMatchPred (strToLower (strTrim sel))) with
      | nil => rfl
      | cons x tail =>
        cases tail with
        | nil =>
          rw [hfil] at hp hq
          simp only [List.mem_singleton] at hp hq
          exact absurd (hp.trans hq.symm) hne
        | cons y rest => rfl

/-- Witness for claim C4: the positional branch at selector 2 and the
ambiguity branch at selector wo, on the work/work2 store. -/
theorem claim_C4_resolver_order_witness :
    strToNat? (strTrim "2") = some 2 ∧
    resolveProfile [profWork, profWork2] "2" = [profWork, profWork2][2 - 1]? ∧
    profWork ∈ List.filter (fuzzyMatchPred (strToLower (strTrim "wo"))) [profWork, profWork2] ∧
    resolveProfile [profWork, profWork2] "wo" = none :=
  ⟨by decide,
    claim_C4_resolver_order.2.2.1 [profWork, profWork2] "2" 2 (by decide) (by decide)
      (by decide),
    by decide,
    claim_C4_resolver_order.2.2.2 [profWork, profWork2] "wo" profWork profWork2 (by decide)
      (by decide) (by decide) (by decide) (by decide)⟩

/-- Claim C7: importing a credential whose refresh secret is already stored
never adds a second entry.  For the pool: when at most one account carries
the secret, one import leaves exactly one such account, and a second import
of the same credential is a no-op that reports the existing account.  For
the profile store: two adds of the same live credential leave exactly one
profile with its refresh secret, the second updating in place (same profile
count). -/
theorem claim_C7_import_idempotent :
    (∀ (cfg : AccountsConfig) (acct : AntigravityAccount),
      countByRefreshToken cfg.accounts acct.refreshToken ≤ 1 →
      countByRefreshToken (agImport cfg acct).1.accounts acct.refreshToken = 1 ∧
      (agImport (agImport cfg acct).1 acct).1 = (agImport cfg acct).1 ∧
      (agImport (agImport cfg acct).1 acct).2.isSome = true) ∧
    (∀ (store : StoreV2) (live : OAuthCred) (inferredEmail : Option String)
        (desired : String) (now1 now2 : Nat) (id1 id2 r : String),
      live.refresh = some r →
      countByRefreshSecret store.profiles r ≤ 1 →
      countByRefreshSecret
        (codexswapAdd store live inferredEmail desired now1 id1).profiles r = 1 ∧
      countByRefreshSecret
        (codexswapAdd (codexswapAdd store live inferredEmail desired now1 id1)
          live inferredEmail desired now2 id2).profiles r = 1 ∧
      (codexswapAdd (codexswapAdd store live inferredEmail desired now1 id1)
          live inferredEmail desired now2 id2).profiles.length
        = (codexswapAdd store live inferredEmail desired now1 id1).profiles.length) := by
  constructor
  · intro cfg acct hle
    cases hfind : cfg.accounts.find? (fun a => a.refreshToken == acct.refreshToken) with
    | some existing =>
      have hpred := @List.find?_some _ _ _ _ hfind
      have hpos0 : 0 < (cfg.accounts.filter
          (fun a => a.refreshToken == acct.refreshToken)).length :=
        filter_pos_of_mem _ cfg.accounts existing (List.mem_of_find?_eq_some hfind) hpred
      have hpos : 0 < countByRefreshToken cfg.accounts acct.refreshToken := hpos0
      have h1 : (agImport cfg acct).1 = cfg := by
        simp [agImport, hfind]
      rw [h1]
      refine ⟨by omega, ?_, ?_⟩
      · simp [agImport, hfind]
      · simp [agImport, hfind]
    | none =>
      have hzero : countByRefreshToken cfg.accounts acct.refreshToken = 0 := by
        simp only [countByRefreshToken]
        rw [List.length_eq_zero]
        exact List.filter_eq_nil_iff.mpr (List.find?_eq_none.mp hfind)
      have h1 : (agImport cfg acct).1 = { cfg with accounts := cfg.accounts ++ [acct] } := by
        simp [agImport, hfind]
      have hcount1 : countByRefreshToken (cfg.accounts ++ [acct]) acct.refreshToken = 1 := by
        simp only [countByRefreshToken, List.filter_append, List.length_append]
        have hsing : List.filter (fun a => a.refreshToken == acct.refreshToken) [acct]
            = [acct] := by
          simp [List.filter]
        rw [hsing]
        simp only [countByRefreshToken] at hzero
        simp [hzero]
      obtain ⟨e, hf2⟩ : ∃ e, (cfg.accounts ++ [acct]).find?
          (fun a => a.refreshToken == acct.refreshToken) = some e := by
        cases hf : (cfg.accounts ++ [acct]).find?
            (fun a => a.refreshToken == acct.refreshToken) with
        | none =>
          exfalso
          have := List.find?_eq_none.mp hf acct (by simp)
          simp at this
        | some e => exact ⟨e, rfl⟩
      refine ⟨by rw [h1]; exact hcount1, ?_, ?_⟩
      · rw [h1]
        simp [agImport, hf2]
      · rw [h1]
        simp [agImport, hf2]
  · intro store live inferredEmail desired now1 now2 id1 id2 r hr hle
    have main : ∀ (st : StoreV2) (nowx : Nat) (idx : String),
        countByRefreshSecret st.profiles r ≤ 1 →
        countByRefreshSecret (codexswapAdd st live inferredEmail desired nowx idx).profiles r
          = 1 ∧
        (countByRefreshSecret st.profiles r = 1 →
          (codexswapAdd st live inferredEmail desired nowx idx).profiles.length
            = st.profiles.length) := by
      intro st nowx idx hle'
      cases hfind : st.profiles.find? (fun p => p.oauth.refresh == some r) with
      | some existing =>
        have hpred := @List.find?_some _ _ _ _ hfind
        have hpos0 : 0 < (st.profiles.filter
            (fun p => p.oauth.refresh == some r)).length :=
          filter_pos_of_mem _ st.profiles existing (List.mem_of_find?_eq_some hfind) hpred
        have hpos : 0 < countByRefreshSecret st.profiles r := hpos0
        have hprofiles : (codexswapAdd st live inferredEmail desired nowx idx).profiles
            = updateFirstByRefresh r
              (fun p => { p with
                oauth := live, savedAt := nowx, email := inferredEmail,
                accountId := live.accountId,
                label := if sanitizeLabel desired ≠ "" then
                    ensureUniqueLabel st.profiles (sanitizeLabel desired) (some p.id)
                  else p.label }) st.profiles := by
          simp [codexswapAdd, findByRefresh, hr, hfind]
        have hf : ∀ p : Profile, p.oauth.refresh = some r →
            ((fun p => { p with
                oauth := live, savedAt := nowx, email := inferredEmail,
                accountId := live.accountId,
                label := if sanitizeLabel desired ≠ "" then
                    ensureUniqueLabel st.profiles (sanitizeLabel desired) (some p.id)
                  else p.label }) p : Profile).oauth.refresh = some r := by
          intro p _
          simpa using hr
        constructor
        · rw [hprofiles, updateFirstByRefresh_count r _ hf st.profiles]
          omega
        · intro _
          rw [hprofiles, updateFirstByRefresh_length]
      | none =>
        have hzero : countByRefreshSecret st.profiles r = 0 := by
          simp only [countByRefreshSecret]
          rw [List.length_eq_zero]
          exact List.filter_eq_nil_iff.mpr (List.find?_eq_none.mp hfind)
        have hprofiles : (codexswapAdd st live inferredEmail desired nowx idx).profiles
            = st.profiles ++ [profileFromOauth live
                (if sanitizeLabel desired ≠ "" then
                    ensureUniqueLabel st.profiles (sanitizeLabel desired) none
                  else defaultLabelFor live inferredEmail st.profiles)
                nowx idx inferredEmail] := by
          simp [codexswapAdd, findByRefresh, hr, hfind]
        constructor
        · rw [hprofiles]
          simp only [countByRefreshSecret, List.filter_append, List.length_append]
          have hsing : List.filter (fun p => p.oauth.refresh == some r)
              [profileFromOauth live
                (if sanitizeLabel desired ≠ "" then
                    ensureUniqueLabel st.profiles (sanitizeLabel desired) none
                  else defaultLabelFor live inferredEmail st.profiles)
                nowx idx inferredEmail]
              = [profileFromOauth live
                (if sanitizeLabel desired ≠ "" then
                    ensureUniqueLabel st.profiles (sanitizeLabel desired) none
                  else defaultLabelFor live inferredEmail st.profiles)
                nowx idx inferredEmail] := by
            simp [List.filter, profileFromOauth, hr]
          rw [hsing]
          simp only [countByRefreshSecret] at hzero
          simp [hzero]
        · intro hone
          omega
    obtain ⟨hc1, _⟩ := main store now1 id1 hle
    obtain ⟨hc2, hlen2⟩ := main (codexswapAdd store live inferredEmail desired now1 id1)
      now2 id2 (by omega)
    exact ⟨hc1, hc2, hlen2 hc1⟩

/-- Witness for claim C7: importing a fresh credential twice into the empty
pool and empty store. -/
theorem claim_C7_import_idempotent_witness :
    countByRefreshToken cfgSolo.accounts "rnew" ≤ 1 ∧
    countByRefreshToken
      (agImport cfgSolo (mkAcct "new@x.com" "rnew" none)).1.accounts "rnew" = 1 ∧
    liveNew.refresh = some "Rnew" ∧
    countByRefreshSecret
      (codexswapAdd (codexswapAdd { profiles := [] } liveNew none "work" 10 "idA")
        liveNew none "work" 20 "idB").profiles "Rnew" = 1 :=
  ⟨by decide,
    (claim_C7_import_idempotent.1 cfgSolo (mkAcct "new@x.com" "rnew" none) (by decide)).1,
    rfl,
    (claim_C7_import_idempotent.2 { profiles := [] } liveNew none "work" 10 20 "idA" "idB"
      "Rnew" rfl (by decide)).2.1⟩

/-- Claim C8: migrating a legacy document with only the previous slot
populated (with an oauth credential) and activeSlot previous yields exactly
one profile, carrying the slot's credential under id legacy_previous, with
activeProfileId pointing at it; and when both slots are populated with the
same refresh secret, the previous slot is skipped (dedup by refresh secret),
leaving one profile. -/
theorem claim_C8_migrate_legacy :
    (∀ (slot : LegacySlot) (now : Nat), slot.oauth.type = "oauth" →
      ((migrateLegacyStore {
          activeSlot := some LegacySlotName.previous,
          slotCurrent := none, slotPrevious := some slot } now).profiles.map
        (fun p => (p.id, p.oauth))) = [("legacy_previous", slot.oauth)] ∧
      (migrateLegacyStore {
          activeSlot := some LegacySlotName.previous,
          slotCurrent := none, slotPrevious := some slot } now).activeProfileId
        = some "legacy_previous") ∧
    (∀ (c p : LegacySlot) (now : Nat) (r : String),
      c.oauth.type = "oauth" → p.oauth.type = "oauth" →
      c.oauth.refresh = some r → p.oauth.refresh = some r →
      (migrateLegacyStore {
          activeSlot := some LegacySlotName.current,
          slotCurrent := some c, slotPrevious := some p } now).profiles.length = 1) := by
  constructor
  · intro slot now htype
    have hfind : findByRefresh [] slot.oauth.refresh = none := by
      cases h : slot.oauth.refresh <;> simp [findByRefresh]
    have hprofiles : (migrateLegacyStore {
        activeSlot := some LegacySlotName.previous,
        slotCurrent := none, slotPrevious := some slot } now).profiles
        = [{
             id := "legacy_" ++ legacySlotNameStr LegacySlotName.previous,
             label := if sanitizeLabel (if slot.label = ""
                 then legacySlotNameStr LegacySlotName.previous else slot.label) = ""
               then legacySlotNameStr LegacySlotName.previous
               else sanitizeLabel (if slot.label = ""
                 then legacySlotNameStr LegacySlotName.previous else slot.label),
             savedAt := if slot.savedAt = 0 then now else slot.savedAt,
             email := slot.email, accountId := slot.accountId, oauth := slot.oauth }] := by
      simp only [migrateLegacyStore, addLegacy]
      rw [if_neg (by simp [htype])]
      rw [if_neg (by simp [hfind])]
      simp
    constructor
    · rw [hprofiles]
      rfl
    · simp only [migrateLegacyStore]
      simp only [migrateLegacyStore] at hprofiles
      rw [hprofiles]
      rfl
  · intro c p now r htc htp hrc hrp
    have hcur : addLegacy {
        activeSlot := some LegacySlotName.current,
        slotCurrent := some c, slotPrevious := some p } LegacySlotName.current now []
        = [{
             id := "legacy_" ++ legacySlotNameStr LegacySlotName.current,
             label := if sanitizeLabel (if c.label = ""
                 then legacySlotNameStr LegacySlotName.current else c.label) = ""
               then legacySlotNameStr LegacySlotName.current
               else sanitizeLabel (if c.label = ""
                 then legacySlotNameStr LegacySlotName.current else c.label),
             savedAt := if c.savedAt = 0 then now else c.savedAt,
             email := c.email, accountId := c.accountId, oauth := c.oauth }] := by
      simp only [addLegacy]
      rw [if_neg (by simp [htc])]
      rw [if_neg (by simp [findByRefresh, hrc])]
      simp
    have hprev : ∀ pc : Profile, pc.oauth = c.oauth →
        addLegacy {
          activeSlot := some LegacySlotName.current,
          slotCurrent := some c, slotPrevious := some p } LegacySlotName.previous now [pc]
        = [pc] := by
      intro pc hpc
      simp only [addLegacy]
      rw [if_neg (by simp [htp])]
      rw [if_pos ?_]
      simp only [findByRefresh, hrp, List.find?_cons, hpc, hrc]
      simp
    simp only [migrateLegacyStore]
    rw [hcur, hprev _ rfl]
    rfl

/-- Witness for claim C8 at the concrete Scenario D slot. -/
theorem claim_C8_migrate_legacy_witness :
    slotPrev.oauth.type = "oauth" ∧
    (migrateLegacyStore legacyPrevOnly 99).activeProfileId = some "legacy_previous" ∧
    (migrateLegacyStore {
        activeSlot := some LegacySlotName.current,
        slotCurrent := some slotPrev, slotPrevious := some slotPrev } 99).profiles.length
      = 1 :=
  ⟨rfl,
    (claim_C8_migrate_legacy.1 slotPrev 99 rfl).2,
    claim_C8_migrate_legacy.2 slotPrev slotPrev 99 "rp" rfl rfl rfl rfl⟩
